/-
Verification of the activity memory store of the ai-gym-memory-system
repository: a shallow embedding of `src/services/memory_service.py`,
`src/services/embedding_service.py` and the record shape produced by
`src/services/gemini_service.py`, together with theorems settling the
frozen claims about the specification.

Modelling conventions:
* Python dict fields that may be a string, an explicit JSON `null`, or an
  absent key are modelled by `StrField` (`.str s` / `.null` / `.absent`);
  numeric optional fields collapse `null`/absent into `none` because the
  code only ever observes them through truthiness, where both are falsy.
* Python string comparison is lexicographic on code points; it is modelled
  by `pyLe` on the underlying character lists (Lean's built-in `String`
  order does not reduce in the kernel).  `str.lower()` is modelled by
  `pyLower` (character-wise lowering, which agrees with Python on the
  ASCII data these records carry).
* Python's stable sort (`list.sort` / `sorted`, Timsort) is modelled by
  `List.insertionSort`, which is stable for the same "keep the earlier
  element on ties" discipline; `reverse=True` becomes the flipped key
  relation.
* Python slicing `xs[:n]` (including negative `n`) is `pySlice`.
* Embedding vectors are lists of real numbers; the external Embedder is a
  parameter returning `Except EmbedErr`, matching the collaborator that
  may raise.  `uuid.uuid4()` and `datetime.now()` are oracle parameters
  of the insert operation.
-/
import Mathlib

namespace GymMemory

/-! ## Python value modelling -/

/-- A dict entry that is a string, an explicit `null`, or an absent key. -/
inductive StrField where
  | absent : StrField
  | null : StrField
  | str (s : String) : StrField
deriving DecidableEq

/-- Python truthiness of `d.get(k)` for a string-valued field: the string
when present and non-empty, otherwise nothing (`None`, `null` and `""` are
all falsy). -/
def StrField.truthy : StrField → Option String
  | .str s => if s = "" then none else some s
  | _ => none

/-- Truthiness of an optional integer field (`0`, `null` and absent are
falsy). -/
def intTruthy : Option Int → Option Int
  | some n => if n = 0 then none else some n
  | none => none

/-- Truthiness of an optional rational field (`0`, `null` and absent are
falsy). -/
def ratTruthy : Option ℚ → Option ℚ
  | some q => if q = 0 then none else some q
  | none => none

/-- Python string comparison (`<=`): lexicographic on code points,
modelled on the character lists. -/
def pyLe (a b : String) : Prop := a.data ≤ b.data

instance : DecidableRel pyLe := fun a b =>
  inferInstanceAs (Decidable (a.data ≤ b.data))

/-- Python `str.lower()`, modelled character-wise. -/
def pyLower (s : String) : String := ⟨s.data.map Char.toLower⟩

/-- Python slicing `xs[:n]`, including negative `n` (count from the
end; empty when `n` reaches past the front). -/
def pySlice {α : Type} (l : List α) (n : Int) : List α :=
  if 0 ≤ n then l.take n.toNat else l.take ((l.length : Int) + n).toNat

/-! ## Data model -/

/-- The payload handed to `store_activity`: the structured record the
Intent Extractor produces (`gemini_service.extract_activity` output
shape). -/
structure ActivityData where
  exercise : StrField
  sets : Option Int
  reps : Option Int
  weight : Option ℚ
  unit : StrField
  duration : Option Int
  notes : StrField
  date : StrField
deriving DecidableEq

/-- A stored activity record: the payload plus the store-assigned
`id` and `created_at` stamps (`store_activity` lines 48-55). -/
structure Activity where
  id : String
  created_at : String
  exercise : StrField
  sets : Option Int
  reps : Option Int
  weight : Option ℚ
  unit : StrField
  duration : Option Int
  notes : StrField
  date : StrField
deriving DecidableEq

/-- Assembling the stored dict `{"id": ..., "created_at": ..., **data}`. -/
def mkActivity (newId now : String) (d : ActivityData) : Activity :=
  ⟨newId, now, d.exercise, d.sets, d.reps, d.weight, d.unit, d.duration,
    d.notes, d.date⟩

/-- The state of `MemoryService`: the two parallel in-memory lists
`self.activities` and `self.embeddings`. -/
structure State where
  activities : List Activity
  embeddings : List (List ℝ)

/-- Failure of the external Embedder collaborator. -/
inductive EmbedErr where
  | embeddingFailure : EmbedErr
deriving DecidableEq

/-- A Python runtime error escaping a store operation. -/
inductive PyErr where
  | attributeError : PyErr
deriving DecidableEq

/-! ## Sorting (Python `sorted`/`list.sort` with `reverse=True`) -/

/-- Descending key order: `a` may stay before `b` when `key b <= key a`.
`insertionSort` with this relation is exactly a stable descending sort,
matching Python's stable `sort(key=..., reverse=True)`. -/
def keyGe (f : Activity → String) (a b : Activity) : Prop := pyLe (f b) (f a)

instance (f : Activity → String) : DecidableRel (keyGe f) := fun a b =>
  inferInstanceAs (Decidable (pyLe (f b) (f a)))

instance (f : Activity → String) : IsTotal Activity (keyGe f) :=
  ⟨fun a b => by
    rcases le_total (f b).data (f a).data with h | h
    · exact Or.inl h
    · exact Or.inr h⟩

instance (f : Activity → String) : IsTrans Activity (keyGe f) :=
  ⟨fun _ _ _ hab hbc => le_trans hbc hab⟩

/-- Python's stable descending sort by a string key. -/
def pySortDesc (f : Activity → String) (l : List Activity) : List Activity :=
  l.insertionSort (keyGe f)

/-- Descending order on score-carrying pairs, used by `search_similar`'s
`similarities.sort(key=lambda x: x[1], reverse=True)`. -/
def sndGe {β α : Type} [LE α] (x y : β × α) : Prop := y.2 ≤ x.2

instance {β α : Type} [LinearOrder α] : DecidableRel (@sndGe β α _) :=
  fun x y => inferInstanceAs (Decidable (y.2 ≤ x.2))

instance {β α : Type} [LinearOrder α] : IsTotal (β × α) sndGe :=
  ⟨fun a b => by
    rcases le_total b.2 a.2 with h | h
    · exact Or.inl h
    · exact Or.inr h⟩

instance {β α : Type} [LinearOrder α] : IsTrans (β × α) sndGe :=
  ⟨fun _ _ _ hab hbc => le_trans hbc hab⟩

/-! ## `EmbeddingService.create_activity_text` (lines 25-63) -/

/-- Line-by-line translation of `create_activity_text`: build `parts`
by appending a labelled fragment for each truthy field, in source order,
then join with `" | "`. -/
def create_activity_text (a : Activity) : String :=
  let parts : List String := []
  let parts := match a.exercise.truthy with
    | some e => parts ++ ["Exercise: " ++ e]
    | none => parts
  let parts := match intTruthy a.sets with
    | some n => parts ++ [toString n ++ " sets"]
    | none => parts
  let parts := match intTruthy a.reps with
    | some n => parts ++ [toString n ++ " reps"]
    | none => parts
  let parts := match ratTruthy a.weight, a.unit.truthy with
    | some w, some u => parts ++ [toString w ++ " " ++ u]
    | _, _ => parts
  let parts := match intTruthy a.duration with
    | some n => parts ++ [toString n ++ " minutes"]
    | none => parts
  let parts := match a.notes.truthy with
    | some n => parts ++ ["Notes: " ++ n]
    | none => parts
  let parts := match a.date.truthy with
    | some d => parts ++ ["Date: " ++ d]
    | none => parts
  String.intercalate " | " parts

/-- The text projection as the spec words it: a fixed-order list of
optional labelled fragments — exercise, sets, reps, weight+unit,
duration, notes, date — where an absent field contributes no fragment
(the weight fragment requires both weight and unit), joined by `" | "`. -/
def spec_activity_text (a : Activity) : String :=
  String.intercalate " | " (List.filterMap id
    [ (a.exercise.truthy).map (fun e => "Exercise: " ++ e),
      (intTruthy a.sets).map (fun n => toString n ++ " sets"),
      (intTruthy a.reps).map (fun n => toString n ++ " reps"),
      (match ratTruthy a.weight, a.unit.truthy with
        | some w, some u => some (toString w ++ " " ++ u)
        | _, _ => none),
      (intTruthy a.duration).map (fun n => toString n ++ " minutes"),
      (a.notes.truthy).map (fun n => "Notes: " ++ n),
      (a.date.truthy).map (fun d => "Date: " ++ d) ])

/-! ## `MemoryService.store_activity` (lines 36-69) -/

/-- `store_activity`: assemble the record with the fresh id and
timestamp, ask the Embedder for a vector, and only on success append
the record and its vector to the two parallel lists.  The Embedder and
the id/timestamp oracles are parameters.  Returns the resulting state
together with the outcome (`raise` propagates the Embedder failure and
leaves the state untouched). -/
def store_activity (embed : Activity → Except EmbedErr (List ℝ))
    (newId now : String) (s : State) (d : ActivityData) :
    State × Except EmbedErr String :=
  let activity := mkActivity newId now d
  match embed activity with
  | .error e => (s, .error e)
  | .ok v =>
      ({ activities := s.activities ++ [activity],
         embeddings := s.embeddings ++ [v] }, .ok newId)

/-! ## `MemoryService._cosine_similarity` (lines 253-274) -/

/-- `np.dot` on two (equal-length) vectors. -/
def dotP (a b : List ℝ) : ℝ := (List.zipWith (fun x y => x * y) a b).sum

/-- Sum of squares of a vector. -/
def sumSq (a : List ℝ) : ℝ := (a.map (fun x => x * x)).sum

/-- `np.linalg.norm`: the Euclidean norm. -/
noncomputable def listNorm (a : List ℝ) : ℝ := Real.sqrt (sumSq a)

/-- `_cosine_similarity`: `0.0` when the product of norms is zero,
otherwise the dot product divided by the product of norms. -/
noncomputable def cosineSim (a b : List ℝ) : ℝ :=
  if listNorm a * listNorm b = 0 then 0
  else dotP a b / (listNorm a * listNorm b)

/-! ## `MemoryService.search_similar` (lines 71-118) -/

/-- The ranking pipeline of `search_similar` lines 102-111: stable-sort
the scored entries by score descending, slice off the first `top_k`,
then keep only the entries whose score reaches the threshold. -/
def rankResults {β α : Type} [LinearOrder α]
    (sims : List (β × α)) (topK : Int) (threshold : α) : List (β × α) :=
  (pySlice (sims.insertionSort sndGe) topK).filter
    (fun p => threshold ≤ p.2)

/-- Each stored record paired with its cosine similarity to the query
vector (the enumerate-and-score loop, using the record/vector pairing). -/
noncomputable def scored (q : List ℝ) (s : State) : List (Activity × ℝ) :=
  (s.activities.zip s.embeddings).map (fun p => (p.1, cosineSim q p.2))

/-- `search_similar` on an already-embedded query vector (the query
embedding itself is produced by the external Embedder): empty when
nothing is stored, otherwise the ranking pipeline over the scored
records. -/
noncomputable def search_similar (q : List ℝ) (s : State) (topK : Int)
    (threshold : ℝ) : List (Activity × ℝ) :=
  if s.activities = [] then [] else rankResults (scored q s) topK threshold

/-! ## `MemoryService.search_by_date_range` (lines 120-161) -/

/-- The effective value of an optional date bound: the code only applies
a bound that is truthy (`if start_date and ...`), so `None` and `""`
both mean unbounded. -/
def boundVal : Option String → Option String
  | none => none
  | some s => if s = "" then none else some s

/-- The in-range check of the filtering loop: the record needs a truthy
date, each truthy bound is inclusive, and a missing bound is dropped. -/
def inRangeB (sd ed : Option String) (a : Activity) : Bool :=
  match a.date.truthy with
  | none => false
  | some d =>
      (match boundVal sd with
        | some x => decide (pyLe x d)
        | none => true)
      && (match boundVal ed with
        | some y => decide (pyLe d y)
        | none => true)

/-- The sort key `x.get("date", "")` used by the date-descending sorts.
(For an explicit `null` date Python would yield `None` here and the sort
would raise on comparison; the theorems below never touch that case —
it is excluded by prior filtering or by hypothesis.) -/
def dKey (a : Activity) : String :=
  match a.date with
  | .str s => s
  | _ => ""

/-- `search_by_date_range`: filter to truthy dates inside the (truthy)
bounds, then sort by date descending. -/
def search_by_date_range (s : State) (sd ed : Option String) :
    List Activity :=
  pySortDesc dKey (s.activities.filter (inRangeB sd ed))

/-! ## `MemoryService.search_by_exercise` (lines 163-186) -/

/-- `activity.get("exercise", "").lower()`: the default `""` is lowered
when the key is absent, a stored string is lowered, and an explicit
`null` raises `AttributeError` (`None` has no `lower`). -/
def lowerField : StrField → Except PyErr String
  | .absent => .ok ""
  | .null => .error .attributeError
  | .str s => .ok (pyLower s)

/-- The list comprehension of `search_by_exercise`: keep the records
whose lowered exercise equals the lowered query name, propagating the
`AttributeError` a `null` exercise raises. -/
def filterByExercise (name : String) : List Activity → Except PyErr (List Activity)
  | [] => .ok []
  | a :: rest => do
      let e ← lowerField a.exercise
      let rest' ← filterByExercise name rest
      if e = pyLower name then .ok (a :: rest') else .ok rest'

/-- The pure value of the match key for a record without a `null`
exercise. -/
def exKeyLower (a : Activity) : String :=
  match a.exercise with
  | .str s => pyLower s
  | _ => ""

/-- `search_by_exercise`: the comprehension, then the date-descending
sort. -/
def search_by_exercise (s : State) (name : String) :
    Except PyErr (List Activity) :=
  (filterByExercise name s.activities).map (pySortDesc dKey)

/-! ## `MemoryService.get_all_activities` (lines 188-209) -/

/-- The sort key `x.get("created_at", "")` (always present: the store
stamps it at insert). -/
def createdKey (a : Activity) : String := a.created_at

/-- `get_all_activities`: sort by `created_at` descending, then Python
slicing `[:limit]`. -/
def get_all_activities (s : State) (limit : Int) : List Activity :=
  pySlice (pySortDesc createdKey s.activities) limit

/-! ## `MemoryService.get_statistics` (lines 211-251) -/

/-- The truthy exercise value a record contributes to the statistics
pass (`exercise = activity.get("exercise"); if exercise:`). -/
def exOf (a : Activity) : Option String := a.exercise.truthy

/-- One step of `exercise_counts[exercise] = exercise_counts.get(exercise, 0) + 1`
on an insertion-ordered dict modelled as an association list: bump the
existing entry in place, or append a fresh entry at the end. -/
def bump : List (String × Nat) → String → List (String × Nat)
  | [], e => [(e, 1)]
  | (k, v) :: rest, e =>
      if k = e then (k, v + 1) :: rest else (k, v) :: bump rest e

/-- The counting pass over the stored activities, in insertion order. -/
def buildCounts (acts : List Activity) : List (String × Nat) :=
  acts.foldl (fun cs a =>
    match exOf a with
    | some e => bump cs e
    | none => cs) []

/-- Dict lookup with default `0` (`exercise_counts.get(e, 0)`). -/
def lookupN : List (String × Nat) → String → Nat
  | [], _ => 0
  | (k, v) :: rest, e => if k = e then v else lookupN rest e

/-- One comparison step of Python `max(..., key=lambda x: x[1])`: a later
item replaces the current champion only when its value is strictly
larger, so the earliest maximal item wins. -/
def pickMax (b y : String × Nat) : String × Nat :=
  if b.2 < y.2 then y else b

/-- Python `max(items, key=lambda x: x[1])`: the earliest item with the
largest value; `none` on an empty dict, which the code guards against. -/
def pyMaxBySnd : List (String × Nat) → Option (String × Nat)
  | [] => none
  | x :: xs => some (xs.foldl pickMax x)

/-- Python `max(strings, default=None)`. -/
def pyMaxStr (l : List String) : Option String :=
  l.foldl (fun acc d =>
    match acc with
    | none => some d
    | some m => if pyLe d m then some m else some d) none

/-- The statistics dict (on an empty store the code returns only the
first three keys; the remaining fields are `none`/`[]` here). -/
structure Stats where
  total_workouts : Nat
  total_exercises : Nat
  most_frequent_exercise : Option String
  last_workout_date : Option String
  exercise_breakdown : List (String × Nat)
deriving DecidableEq

/-- `get_statistics`: zero/null statistics on an empty store; otherwise
count raw exercise values (case-sensitive), take the first maximal
entry of the counting dict, and the lexicographic maximum of the truthy
dates. -/
def get_statistics (s : State) : Stats :=
  if s.activities = [] then
    { total_workouts := 0, total_exercises := 0,
      most_frequent_exercise := none, last_workout_date := none,
      exercise_breakdown := [] }
  else
    let counts := buildCounts s.activities
    { total_workouts := s.activities.length,
      total_exercises := ((s.activities.filterMap exOf).dedup).length,
      most_frequent_exercise := (pyMaxBySnd counts).map (fun p => p.1),
      last_workout_date := pyMaxStr (s.activities.filterMap (fun a => a.date.truthy)),
      exercise_breakdown := counts }

/-- Number of stored records carrying the (truthy) exercise `e`. -/
def occ (acts : List Activity) (e : String) : Nat :=
  acts.countP (fun a => exOf a == some e)

/-- Position of the first stored record carrying the (truthy)
exercise `e` (the length of the list when there is none). -/
def fIdx (acts : List Activity) (e : String) : Nat :=
  acts.findIdx (fun a => exOf a == some e)

/-! ## Concrete records and states used by witnesses and counterexamples -/

/-- An Embedder that always fails. -/
def embedFailW : Activity → Except EmbedErr (List ℝ) :=
  fun _ => .error .embeddingFailure

/-- An Embedder that always succeeds with a one-dimensional vector. -/
noncomputable def embedOkW : Activity → Except EmbedErr (List ℝ) :=
  fun _ => .ok [1]

/-- The freshly constructed store. -/
def emptyState : State := ⟨[], []⟩

/-- A fully populated structured record. -/
def dataW : ActivityData :=
  ⟨.str "squat", some 3, some 5, some 100, .str "kg", none, .absent,
    .str "2026-01-10"⟩

/-- A record shaped like the worked example of `extract_activity`. -/
def recW9 : Activity :=
  mkActivity "i9" "t9"
    ⟨.str "bench press", some 3, none, some 185, .str "lbs", none, .null,
      .str "2026-01-21"⟩

/-- First record for the two-record store (older `created_at`). -/
def cexData1 : ActivityData :=
  ⟨.str "squat", none, none, none, .absent, none, .absent, .str "2026-01-01"⟩

/-- Second record for the two-record store (newer `created_at`). -/
def cexData2 : ActivityData :=
  ⟨.str "bench", none, none, none, .absent, none, .absent, .str "2026-01-02"⟩

/-- A store holding two records, for the negative-limit counterexample. -/
def cexState2 : State :=
  ⟨[mkActivity "id1" "t1" cexData1, mkActivity "id2" "t2" cexData2], []⟩

/-- A record dated 2026-01-14 (the spec's date-range example). -/
def dRec14 : Activity :=
  mkActivity "w" "t"
    ⟨.str "squat", none, none, none, .absent, none, .absent, .str "2026-01-14"⟩

/-- A record with no date at all. -/
def dRecNone : Activity :=
  mkActivity "w2" "t2"
    ⟨.str "row", none, none, none, .absent, none, .absent, .absent⟩

/-- A store holding the dated and the undated record. -/
def dState : State := ⟨[dRec14, dRecNone], []⟩

/-- A record whose exercise field holds an explicit `null`, as the
Intent Extractor produces for missing information. -/
def nullExData : ActivityData :=
  ⟨.null, none, none, none, .absent, none, .str "did something",
    .str "2026-01-05"⟩

/-- The store after inserting the `null`-exercise record. -/
noncomputable def sNull : State := ⟨[mkActivity "idN" "tN" nullExData], [[1]]⟩

/-- A record stored with the mixed-case exercise label. -/
def benchData1 : ActivityData :=
  ⟨.str "Bench Press", none, none, none, .absent, none, .absent,
    .str "2026-01-03"⟩

/-- The same exercise in lower case, stored separately. -/
def benchData2 : ActivityData :=
  ⟨.str "bench press", none, none, none, .absent, none, .absent,
    .str "2026-01-04"⟩

/-- The store after inserting the mixed-case record. -/
noncomputable def sBench1 : State :=
  ⟨[mkActivity "b1" "t1" benchData1], [[1]]⟩

/-- The store after inserting both case variants. -/
noncomputable def sBench2 : State :=
  ⟨[mkActivity "b1" "t1" benchData1, mkActivity "b2" "t2" benchData2],
    [[1], [1]]⟩

/-- A single record that names no exercise. -/
def noExData : ActivityData :=
  ⟨.absent, none, none, none, .absent, none, .str "jog", .str "2026-01-06"⟩

/-- A non-empty store in which no record names an exercise. -/
noncomputable def sNoEx : State := ⟨[mkActivity "n1" "t1" noExData], [[1]]⟩

/-- Helper for building plain exercise-only records. -/
def exRec (i e : String) : Activity :=
  mkActivity i ("t" ++ i) ⟨.str e, none, none, none, .absent, none, .absent, .absent⟩

/-- A store with a tie: squat and bench both occur twice; squat is
encountered first. -/
def sTie : State :=
  ⟨[exRec "1" "squat", exRec "2" "bench", exRec "3" "bench", exRec "4" "squat"],
    []⟩

/-- A one-record store for the search witness. -/
def wAct : Activity :=
  mkActivity "s" "t"
    ⟨.str "squat", none, none, none, .absent, none, .absent, .absent⟩

/-- Its state, with a one-dimensional unit vector stored. -/
noncomputable def wState : State := ⟨[wAct], [[1]]⟩

/-- A store for the by-exercise witness: one "Bench Press" record. -/
def sBenchW : State := ⟨[mkActivity "bw" "tw" benchData1], []⟩

/-! ## Shared lemmas -/

/-- The empty string is the bottom of Python string order. -/
theorem pyLe_empty (s : String) : pyLe "" s := by
  show ("" : String).data ≤ s.data
  cases h : s.data with
  | nil => rw [show ("" : String).data = [] from rfl]
  | cons c cs =>
      rw [show ("" : String).data = [] from rfl]
      exact le_of_lt (List.nil_lt_cons c cs)

/-- Only the empty string sorts at or below the empty string. -/
theorem eq_empty_of_pyLe_empty {s : String} (h : pyLe s "") : s = "" := by
  cases s with
  | mk d =>
      have h2 : pyLe "" ⟨d⟩ := pyLe_empty ⟨d⟩
      have hd : d = ("" : String).data := le_antisymm h h2
      exact congrArg String.mk hd

/-- Membership is invariant under the stable descending sort. -/
theorem mem_pySortDesc {f : Activity → String} {l : List Activity}
    {a : Activity} : a ∈ pySortDesc f l ↔ a ∈ l :=
  (List.perm_insertionSort (keyGe f) l).mem_iff

/-- The stable descending sort is sorted for its key relation. -/
theorem pairwise_pySortDesc (f : Activity → String) (l : List Activity) :
    (pySortDesc f l).Pairwise (keyGe f) :=
  List.sorted_insertionSort (keyGe f) l

/-- The stable descending sort permutes its input. -/
theorem perm_pySortDesc (f : Activity → String) (l : List Activity) :
    (pySortDesc f l).Perm l :=
  List.perm_insertionSort (keyGe f) l

/-- A Python slice is a sublist of the sliced list. -/
theorem pySlice_sublist {α : Type} (l : List α) (n : Int) :
    (pySlice l n).Sublist l := by
  unfold pySlice
  split
  · exact List.take_sublist _ _
  · exact List.take_sublist _ _

/-- A Python slice `xs[:n]` is always an initial segment of `xs`. -/
theorem pySlice_eq_take {α : Type} (l : List α) (n : Int) :
    ∃ k, pySlice l n = l.take k := by
  unfold pySlice
  split
  · exact ⟨n.toNat, rfl⟩
  · exact ⟨((l.length : Int) + n).toNat, rfl⟩

/-! ## C4: insert is atomic for the record/vector pairing -/

/-- C4: if the Embedder fails, `store_activity` propagates the failure
and leaves both lists untouched; if it succeeds, exactly one record and
its one vector are appended; hence every insert preserves the
equal-length positional pairing of `records` and `vectors`. -/
theorem store_activity_atomic (embed : Activity → Except EmbedErr (List ℝ))
    (newId now : String) (s : State) (d : ActivityData) :
    (∀ e, embed (mkActivity newId now d) = .error e →
      store_activity embed newId now s d = (s, .error e)) ∧
    (∀ v, embed (mkActivity newId now d) = .ok v →
      store_activity embed newId now s d =
        ({ activities := s.activities ++ [mkActivity newId now d],
           embeddings := s.embeddings ++ [v] }, .ok newId)) ∧
    (s.activities.length = s.embeddings.length →
      (store_activity embed newId now s d).1.activities.length =
        (store_activity embed newId now s d).1.embeddings.length) := by
  refine ⟨?_, ?_, ?_⟩
  · intro e h
    simp [store_activity, h]
  · intro v h
    simp [store_activity, h]
  · intro hlen
    cases h : embed (mkActivity newId now d) with
    | error e => simp [store_activity, h, hlen]
    | ok v => simp [store_activity, h, hlen]

/-- Witness for C4 at a concrete failing and a concrete succeeding
Embedder. -/
theorem store_activity_atomic_witness :
    store_activity embedFailW "id-1" "t1" emptyState dataW =
      (emptyState, .error .embeddingFailure) ∧
    store_activity embedOkW "id-1" "t1" emptyState dataW =
      ({ activities := emptyState.activities ++ [mkActivity "id-1" "t1" dataW],
         embeddings := emptyState.embeddings ++ [[1]] }, .ok "id-1") ∧
    (store_activity embedOkW "id-1" "t1" emptyState dataW).1.activities.length =
      (store_activity embedOkW "id-1" "t1" emptyState dataW).1.embeddings.length :=
  ⟨(store_activity_atomic embedFailW "id-1" "t1" emptyState dataW).1 _ rfl,
   (store_activity_atomic embedOkW "id-1" "t1" emptyState dataW).2.1 _ rfl,
   (store_activity_atomic embedOkW "id-1" "t1" emptyState dataW).2.2 rfl⟩

/-! ## C7: cosine similarity is total and guards the zero norm -/

/-- C7: `_cosine_similarity` returns exactly `0.0` whenever the product
of norms is zero — in particular when either vector's norm is zero —
and the division branch is taken only when that product is nonzero, in
which case the result times the norm product is the dot product (a
genuine division, never a division by zero). -/
theorem cosine_sim_zero_guard (a b : List ℝ) :
    (listNorm a * listNorm b = 0 → cosineSim a b = 0) ∧
    (listNorm a = 0 ∨ listNorm b = 0 → cosineSim a b = 0) ∧
    (listNorm a * listNorm b ≠ 0 →
      cosineSim a b * (listNorm a * listNorm b) = dotP a b) := by
  refine ⟨fun h => ?_, fun h => ?_, fun h => ?_⟩
  · simp [cosineSim, h]
  · have hz : listNorm a * listNorm b = 0 := by
      rcases h with h | h <;> simp [h]
    simp [cosineSim, hz]
  · rw [cosineSim, if_neg h]
    exact div_mul_cancel₀ _ h

/-- Witness for C7: a zero vector on the left yields exactly `0`, and a
nonzero pair reaches the division branch. -/
theorem cosine_sim_zero_guard_witness :
    cosineSim [(0 : ℝ)] [3, 4] = 0 ∧
    cosineSim [(3 : ℝ), 4] [3, 4] * (listNorm [(3 : ℝ), 4] * listNorm [(3 : ℝ), 4]) =
      dotP [(3 : ℝ), 4] [(3 : ℝ), 4] := by
  constructor
  · refine (cosine_sim_zero_guard [(0 : ℝ)] [3, 4]).2.1 (Or.inl ?_)
    simp [listNorm, sumSq]
  · refine (cosine_sim_zero_guard [(3 : ℝ), 4] [3, 4]).2.2 ?_
    have h1 : (0 : ℝ) < listNorm [(3 : ℝ), 4] := by
      unfold listNorm sumSq
      rw [Real.sqrt_pos]
      norm_num
    exact (mul_pos h1 h1).ne'

/-! ## C9: the embedded text is a fixed-order projection of present fields -/

/-- C9: `create_activity_text` equals the spec-side description — the
`" | "`-join of the labelled fragments of exactly the present (truthy)
fields, in the fixed order exercise, sets, reps, weight+unit, duration,
notes, date, with the weight fragment requiring both weight and unit and
absent fields contributing nothing.  Determinism is immediate: the text
is a pure function of the record. -/
theorem create_activity_text_follows_spec (a : Activity) :
    create_activity_text a = spec_activity_text a := by
  unfold create_activity_text spec_activity_text
  cases a.exercise.truthy <;>
    cases intTruthy a.sets <;>
      cases intTruthy a.reps <;>
        cases ratTruthy a.weight <;>
          cases a.unit.truthy <;>
            cases intTruthy a.duration <;>
              cases a.notes.truthy <;>
                cases a.date.truthy <;>
                  rfl

/-- Witness for C9 at the worked `extract_activity`-style record. -/
theorem create_activity_text_follows_spec_witness :
    create_activity_text recW9 = spec_activity_text recW9 :=
  create_activity_text_follows_spec recW9

/-! ## C2: AllRecords ordering and truncation -/

/-- C2 amended: `get_all_activities` returns an initial segment of the
`created_at`-descending ordering of the store — the last conjunct
decomposes that ordering as the result followed by the leftover
records, every leftover sorting at or below every returned record, so
the result is exactly the most-recent-first truncation; `limit = 0`
yields the empty sequence, a nonnegative `limit` truncates to
`min limit count` records, a `limit` at least the stored count yields
all records — but a negative `limit` follows Python slice semantics
(`xs[:limit]`) and drops only the last `|limit|` records instead of
yielding the empty sequence. -/
theorem get_all_activities_spec (s : State) (limit : Int) :
    (get_all_activities s limit).Pairwise (keyGe createdKey) ∧
    (∀ a, a ∈ get_all_activities s limit → a ∈ s.activities) ∧
    (limit = 0 → get_all_activities s limit = []) ∧
    (0 ≤ limit → (get_all_activities s limit).length =
      min limit.toNat s.activities.length) ∧
    ((s.activities.length : Int) ≤ limit →
      (get_all_activities s limit).Perm s.activities) ∧
    (limit < 0 → (get_all_activities s limit).length =
      s.activities.length - (-limit).toNat) ∧
    (∃ rest, pySortDesc createdKey s.activities =
        get_all_activities s limit ++ rest ∧
      (get_all_activities s limit ++ rest).Perm s.activities ∧
      (∀ a ∈ get_all_activities s limit, ∀ b ∈ rest, keyGe createdKey a b)) := by
  have hlen : (pySortDesc createdKey s.activities).length = s.activities.length :=
    (perm_pySortDesc _ _).length_eq
  refine ⟨?_, ?_, ?_, ?_, ?_, ?_, ?_⟩
  · exact List.Pairwise.sublist (pySlice_sublist _ _) (pairwise_pySortDesc _ _)
  · intro a ha
    exact mem_pySortDesc.mp ((pySlice_sublist _ _).subset ha)
  · intro h
    subst h
    unfold get_all_activities pySlice
    simp
  · intro h
    unfold get_all_activities pySlice
    rw [if_pos h, List.length_take, hlen]
  · intro h
    have h0 : (0 : Int) ≤ limit := le_trans (Int.natCast_nonneg _) h
    unfold get_all_activities pySlice
    rw [if_pos h0, List.take_of_length_le]
    · exact perm_pySortDesc _ _
    · rw [hlen]
      omega
  · intro h
    unfold get_all_activities pySlice
    rw [if_neg (by omega)]
    rw [List.length_take]
    simp only [hlen]
    omega
  · obtain ⟨k, hk⟩ := pySlice_eq_take (pySortDesc createdKey s.activities) limit
    have hga : get_all_activities s limit =
        (pySortDesc createdKey s.activities).take k := hk
    refine ⟨(pySortDesc createdKey s.activities).drop k, ?_, ?_, ?_⟩
    · rw [hga, List.take_append_drop]
    · rw [hga, List.take_append_drop]
      exact perm_pySortDesc _ _
    · intro a ha b hb
      have hp := pairwise_pySortDesc createdKey s.activities
      rw [← List.take_append_drop k (pySortDesc createdKey s.activities)] at hp
      have hcross := (List.pairwise_append.mp hp).2.2
      rw [hga] at ha
      exact hcross a ha b hb

/-- Counterexample to C2 as stated: with two stored records,
`AllRecords(-1)` is not the empty sequence (Python's `xs[:-1]` drops
only the last element). -/
theorem get_all_activities_neg_limit_cex :
    get_all_activities cexState2 (-1) ≠ [] := by decide

/-- Witness for C2 at the two-record store with limits `0`, `1`, `5`
and `-1`: in particular `limit = 1` returns exactly the newest record,
an initial segment of the `created_at`-descending ordering. -/
theorem get_all_activities_spec_witness :
    get_all_activities cexState2 0 = [] ∧
    (get_all_activities cexState2 5).length =
      min (5 : Int).toNat cexState2.activities.length ∧
    (get_all_activities cexState2 5).Perm cexState2.activities ∧
    (get_all_activities cexState2 (-1)).length =
      cexState2.activities.length - (-(-1 : Int)).toNat ∧
    mkActivity "id2" "t2" cexData2 ∈ cexState2.activities ∧
    (∃ rest, pySortDesc createdKey cexState2.activities =
        get_all_activities cexState2 1 ++ rest ∧
      (get_all_activities cexState2 1 ++ rest).Perm cexState2.activities ∧
      (∀ a ∈ get_all_activities cexState2 1, ∀ b ∈ rest,
        keyGe createdKey a b)) ∧
    get_all_activities cexState2 1 = [mkActivity "id2" "t2" cexData2] :=
  ⟨(get_all_activities_spec cexState2 0).2.2.1 rfl,
   (get_all_activities_spec cexState2 5).2.2.2.1 (by decide),
   (get_all_activities_spec cexState2 5).2.2.2.2.1 (by decide),
   (get_all_activities_spec cexState2 (-1)).2.2.2.2.2.1 (by decide),
   (get_all_activities_spec cexState2 5).2.1 _ (by decide),
   (get_all_activities_spec cexState2 1).2.2.2.2.2.2,
   by decide⟩

/-! ## C5: date-range filtering -/

/-- The filtering loop keeps a record exactly when it carries a truthy
date lying inclusively within every effective (truthy) bound. -/
theorem inRangeB_iff (sd ed : Option String) (a : Activity) :
    inRangeB sd ed a = true ↔
      ∃ d, a.date.truthy = some d ∧
        (∀ x, boundVal sd = some x → pyLe x d) ∧
        (∀ y, boundVal ed = some y → pyLe d y) := by
  unfold inRangeB
  cases hd : a.date.truthy with
  | none => simp
  | some d =>
      cases hs : boundVal sd with
      | none =>
          cases he : boundVal ed with
          | none => simp
          | some y => simp
      | some x =>
          cases he : boundVal ed with
          | none => simp
          | some y => simp [Bool.and_eq_true]

/-- C5: `search_by_date_range` returns exactly the records whose date is
present (truthy) and lies inclusively within the bounds, each comparison
being dropped when its bound is absent (Python-falsy, i.e. `None` or
`""`); records lacking a date are excluded regardless of the bounds, and
the result is ordered by date descending. -/
theorem search_by_date_range_spec (s : State) (sd ed : Option String) :
    (∀ a, a ∈ search_by_date_range s sd ed ↔
      (a ∈ s.activities ∧ ∃ d, a.date.truthy = some d ∧
        (∀ x, boundVal sd = some x → pyLe x d) ∧
        (∀ y, boundVal ed = some y → pyLe d y))) ∧
    (search_by_date_range s sd ed).Pairwise (keyGe dKey) := by
  constructor
  · intro a
    rw [search_by_date_range, mem_pySortDesc, List.mem_filter, inRangeB_iff]
  · exact pairwise_pySortDesc _ _

/-- Witness for C5, at the spec's worked example: the record dated
2026-01-14 is inside `["2026-01-10", "2026-01-20"]`, outside
`["2026-01-15", -]`, and the dateless record is excluded even with no
bounds. -/
theorem search_by_date_range_spec_witness :
    dRec14 ∈ search_by_date_range dState (some "2026-01-10") (some "2026-01-20") ∧
    dRec14 ∉ search_by_date_range dState (some "2026-01-15") none ∧
    dRecNone ∉ search_by_date_range dState none none := by
  refine ⟨?_, ?_, ?_⟩
  · refine ((search_by_date_range_spec dState
      (some "2026-01-10") (some "2026-01-20")).1 dRec14).mpr
      ⟨by decide, "2026-01-14", by decide, ?_, ?_⟩
    · intro x hx
      rw [show boundVal (some "2026-01-10") = some "2026-01-10" from by decide] at hx
      obtain rfl := Option.some.inj hx
      decide
    · intro y hy
      rw [show boundVal (some "2026-01-20") = some "2026-01-20" from by decide] at hy
      obtain rfl := Option.some.inj hy
      decide
  · intro h
    obtain ⟨-, d, hd, hs, -⟩ := ((search_by_date_range_spec dState
      (some "2026-01-15") none).1 dRec14).mp h
    have hd14 : d = "2026-01-14" := by
      rw [show dRec14.date.truthy = some "2026-01-14" from by decide] at hd
      exact (Option.some.inj hd).symm
    subst hd14
    have := hs "2026-01-15" (by decide)
    exact absurd this (by decide)
  · intro h
    obtain ⟨-, d, hd, -, -⟩ := ((search_by_date_range_spec dState
      none none).1 dRecNone).mp h
    rw [show dRecNone.date.truthy = none from by decide] at hd
    cases hd

/-! ## C6: by-exercise lookup -/

/-- When no record carries an explicit `null` exercise, the comprehension
succeeds and is the plain filter on the lowered exercise key. -/
theorem filterByExercise_ok {name : String} :
    ∀ {acts : List Activity}, (∀ a ∈ acts, a.exercise ≠ .null) →
      filterByExercise name acts =
        .ok (acts.filter (fun a => exKeyLower a == pyLower name)) := by
  intro acts
  induction acts with
  | nil => intro _; rfl
  | cons a rest ih =>
      intro h
      have ha : a.exercise ≠ .null := h a (List.mem_cons_self a rest)
      have hr := ih (fun b hb => h b (List.mem_cons_of_mem a hb))
      cases hae : a.exercise with
      | null => exact absurd hae ha
      | absent =>
          simp only [filterByExercise, lowerField, hae, hr, Except.bind,
            List.filter_cons, exKeyLower, beq_iff_eq, bind, pure]
          split <;> simp_all
      | str t =>
          simp only [filterByExercise, lowerField, hae, hr, Except.bind,
            List.filter_cons, exKeyLower, beq_iff_eq, bind, pure]
          split <;> simp_all

/-- C6 amended: for every store state whose records carry no explicit
`null` in the exercise field (a `null` exercise makes the lookup raise,
see the C10 theorem) nor in the date field (a `null` date key would make
Python's sort comparison raise), `ByExercise(name)` returns exactly the
records whose exercise matches `name` case-insensitively, ordered by
date descending with the missing-date key `""` sorting lowest, so
records lacking a date trail every dated record and never lead. -/
theorem search_by_exercise_spec (s : State) (name : String)
    (hx : ∀ a ∈ s.activities, a.exercise ≠ .null)
    (_hd : ∀ a ∈ s.activities, a.date ≠ .null) :
    ∃ l, search_by_exercise s name = .ok l ∧
      (∀ a, a ∈ l ↔ (a ∈ s.activities ∧ exKeyLower a = pyLower name)) ∧
      l.Pairwise (keyGe dKey) ∧
      l.Pairwise (fun a b => dKey a = "" → dKey b = "") := by
  refine ⟨pySortDesc dKey
    (s.activities.filter (fun a => exKeyLower a == pyLower name)), ?_, ?_, ?_, ?_⟩
  · unfold search_by_exercise
    rw [filterByExercise_ok hx]
    rfl
  · intro a
    rw [mem_pySortDesc, List.mem_filter, beq_iff_eq]
  · exact pairwise_pySortDesc _ _
  · refine (pairwise_pySortDesc _ _).imp ?_
    intro a b hge hea
    have hge' : pyLe (dKey b) (dKey a) := hge
    rw [hea] at hge'
    exact eq_empty_of_pyLe_empty hge'

/-- Counterexample to C6 as stated: a reachable store state containing a
`null`-exercise record makes `ByExercise` raise `AttributeError` instead
of returning a result sequence. -/
theorem search_by_exercise_null_cex :
    store_activity embedOkW "idN" "tN" emptyState nullExData = (sNull, .ok "idN") ∧
    search_by_exercise sNull "bench press" = .error .attributeError :=
  ⟨rfl, rfl⟩

/-- Witness for C6 at the spec's example: after storing
`exercise="Bench Press"`, querying `"bench press"` succeeds and returns
that record. -/
theorem search_by_exercise_spec_witness :
    ∃ l, search_by_exercise sBenchW "bench press" = .ok l ∧
      mkActivity "bw" "tw" benchData1 ∈ l := by
  obtain ⟨l, hok, hmem, -, -⟩ :=
    search_by_exercise_spec sBenchW "bench press" (by decide) (by decide)
  exact ⟨l, hok, (hmem _).mpr ⟨by decide, by decide⟩⟩

/-! ## C10: a null exercise makes ByExercise raise for every name -/

/-- C10: the store state holding a record whose exercise is an explicit
`null` — the value the Intent Extractor is instructed to produce for
missing information — is reachable by a single insert, and on it
`ByExercise` raises `AttributeError` (`None` has no `lower()`) for every
query name instead of returning a result sequence. -/
theorem search_by_exercise_null_raises :
    store_activity embedOkW "idN" "tN" emptyState nullExData = (sNull, .ok "idN") ∧
    ∀ name, search_by_exercise sNull name = .error .attributeError :=
  ⟨rfl, fun _ => rfl⟩

/-! ## C3: exercise values are stored verbatim, not normalized -/

/-- Counterexample to C3: the mixed-case record is stored verbatim by
`store_activity` (reachably, via two inserts), the stored value is not
lower-cased, and `get_statistics` counts the two case variants of the
same exercise as two distinct exercises, not one. -/
theorem store_normalization_cex :
    store_activity embedOkW "b1" "t1" emptyState benchData1 = (sBench1, .ok "b1") ∧
    store_activity embedOkW "b2" "t2" sBench1 benchData2 = (sBench2, .ok "b2") ∧
    (mkActivity "b1" "t1" benchData1).exercise = .str "Bench Press" ∧
    pyLower "Bench Press" ≠ "Bench Press" ∧
    (get_statistics sBench2).total_exercises = 2 :=
  ⟨rfl, rfl, rfl, by decide, by decide⟩

/-- C3 amended: `store_activity` stores the exercise field exactly as
received — no lower-casing happens in the store (the only lower-casing
request lives in the Intent Extractor's prompt) — and consequently the
distinct-exercise count of `get_statistics` is case-sensitive, counting
"Bench Press" and "bench press" as two exercises. -/
theorem store_exercise_verbatim (embed : Activity → Except EmbedErr (List ℝ))
    (newId now : String) (s : State) (d : ActivityData) (v : List ℝ)
    (h : embed (mkActivity newId now d) = .ok v) :
    (∃ rec, (store_activity embed newId now s d).1.activities =
        s.activities ++ [rec] ∧ rec.exercise = d.exercise) ∧
    (get_statistics sBench2).total_exercises = 2 := by
  refine ⟨⟨mkActivity newId now d, ?_, rfl⟩, by decide⟩
  simp [store_activity, h]

/-- Witness for C3's amended claim at a concrete succeeding Embedder. -/
theorem store_exercise_verbatim_witness :
    (∃ rec, (store_activity embedOkW "b9" "t9" emptyState benchData1).1.activities =
        emptyState.activities ++ [rec] ∧ rec.exercise = benchData1.exercise) ∧
    (get_statistics sBench2).total_exercises = 2 :=
  store_exercise_verbatim embedOkW "b9" "t9" emptyState benchData1 [1] rfl

/-! ## C1: Search truncates to top-K before thresholding -/

/-- C1: every entry `search_similar` returns comes from the first `topK`
entries of the score-descending sort (so a record ranked beyond position
`topK` is never returned, even if its score passes the threshold) and
passes the threshold; and at the spec's worked example — scores
`[0.9, 0.8, 0.6, 0.5, 0.1]`, `topK = 3`, `threshold = 0.7` — the ranking
pipeline returns exactly the entries scoring `0.9` and `0.8`, the `0.6`
inside the window being dropped by the threshold rather than replaced
from beyond the window. -/
theorem search_similar_topk_spec (q : List ℝ) (s : State) (topK : Int)
    (threshold : ℝ) :
    (∀ p, p ∈ search_similar q s topK threshold →
      p ∈ pySlice ((scored q s).insertionSort sndGe) topK ∧ threshold ≤ p.2) ∧
    rankResults [((0 : Nat), (9 : ℚ)/10), (1, 8/10), (2, 6/10), (3, 5/10), (4, 1/10)]
      3 (7/10) = [(0, 9/10), (1, 8/10)] := by
  constructor
  · intro p hp
    unfold search_similar at hp
    split at hp
    · cases hp
    · unfold rankResults at hp
      refine ⟨List.mem_of_mem_filter hp, ?_⟩
      have := List.of_mem_filter hp
      exact of_decide_eq_true this
  · norm_num [rankResults, pySlice, List.insertionSort, List.orderedInsert,
      sndGe, List.filter]

/-- Witness for C1: on a one-record store whose stored vector matches
the query, the returned entry indeed lies in the top-K window and meets
the threshold. -/
theorem search_similar_topk_spec_witness :
    (wAct, (1 : ℝ)) ∈ pySlice ((scored [1] wState).insertionSort sndGe) 1 ∧
    (0 : ℝ) ≤ ((wAct, (1 : ℝ)) : Activity × ℝ).2 := by
  have hc : cosineSim [1] [(1 : ℝ)] = 1 := by
    rw [cosineSim]
    rw [if_neg]
    · norm_num [dotP, listNorm, sumSq]
    · norm_num [listNorm, sumSq]
  have hmem : (wAct, (1 : ℝ)) ∈ search_similar [1] wState 1 0 := by
    rw [search_similar, if_neg (by simp [wState])]
    rw [show scored [1] wState = [(wAct, (1 : ℝ))] from by
      simp [scored, wState, hc]]
    norm_num [rankResults, pySlice, List.insertionSort, List.orderedInsert,
      sndGe, List.filter]
  exact (search_similar_topk_spec [1] wState 1 0).1 _ hmem

/-! ## C8: lemmas about the exercise-counting pass -/

/-- Appending one record adds its (possible) exercise to the count. -/
theorem occ_append (acts : List Activity) (a : Activity) (e : String) :
    occ (acts ++ [a]) e = occ acts e + (if exOf a = some e then 1 else 0) := by
  unfold occ
  rw [List.countP_append]
  simp [List.countP_cons]

/-- The first occurrence of an exercise already present is unmoved by an
append. -/
theorem fIdx_append_hit {acts : List Activity} {e : String}
    (h : fIdx acts e < acts.length) (a : Activity) :
    fIdx (acts ++ [a]) e = fIdx acts e := by
  unfold fIdx at h ⊢
  rw [List.findIdx_append, if_pos h]

/-- An exercise first introduced by the appended record first occurs at
the old length. -/
theorem fIdx_append_miss {acts : List Activity} {e : String}
    (h : ¬ fIdx acts e < acts.length) {a : Activity} (ha : exOf a = some e) :
    fIdx (acts ++ [a]) e = acts.length := by
  unfold fIdx at h ⊢
  rw [List.findIdx_append, if_neg h]
  simp [List.findIdx_cons, ha]

/-- An exercise occurs somewhere iff its first occurrence is a real
position. -/
theorem occ_pos_iff (acts : List Activity) (e : String) :
    0 < occ acts e ↔ fIdx acts e < acts.length := by
  unfold occ fIdx
  rw [List.countP_pos_iff, List.findIdx_lt_length]

/-- `bump` adds one to exactly the bumped key's count. -/
theorem lookupN_bump (cs : List (String × Nat)) (e e' : String) :
    lookupN (bump cs e) e' = lookupN cs e' + (if e' = e then 1 else 0) := by
  induction cs with
  | nil =>
      by_cases h : e' = e
      · subst h; simp [bump, lookupN]
      · simp [bump, lookupN, h, Ne.symm h]
  | cons kv rest ih =>
      obtain ⟨k, v⟩ := kv
      by_cases hk : k = e
      · subst hk
        by_cases hk' : k = e'
        · subst hk'; simp [bump, lookupN]
        · simp [bump, lookupN, hk', Ne.symm hk']
      · by_cases hk' : k = e'
        · subst hk'
          simp [bump, lookupN, hk, Ne.symm hk]
        · simp [bump, lookupN, hk, hk', ih]

/-- Folding the counting step over an appended record that names an
exercise. -/
theorem buildCounts_append_some {acts : List Activity} {a : Activity}
    {e : String} (h : exOf a = some e) :
    buildCounts (acts ++ [a]) = bump (buildCounts acts) e := by
  unfold buildCounts
  rw [List.foldl_append]
  simp [h]

/-- Folding the counting step over an appended record that names no
exercise. -/
theorem buildCounts_append_none {acts : List Activity} {a : Activity}
    (h : exOf a = none) :
    buildCounts (acts ++ [a]) = buildCounts acts := by
  unfold buildCounts
  rw [List.foldl_append]
  simp [h]

/-- The counting dict holds exactly the occurrence counts. -/
theorem lookupN_buildCounts (acts : List Activity) (e : String) :
    lookupN (buildCounts acts) e = occ acts e := by
  induction acts using List.reverseRecOn with
  | nil => rfl
  | append_singleton acts a ih =>
      rw [occ_append]
      cases hx : exOf a with
      | none =>
          rw [buildCounts_append_none hx]
          simpa using ih
      | some e₀ =>
          rw [buildCounts_append_some hx, lookupN_bump, ih]
          by_cases h : e = e₀
          · simp [h]
          · simp [h, Ne.symm h]

/-- Bumping a key already present leaves the key sequence unchanged. -/
theorem bump_keys_of_mem {cs : List (String × Nat)} {e : String}
    (h : e ∈ cs.map Prod.fst) :
    (bump cs e).map Prod.fst = cs.map Prod.fst := by
  induction cs with
  | nil => simp at h
  | cons kv rest ih =>
      obtain ⟨k, v⟩ := kv
      by_cases hk : k = e
      · simp [bump, hk]
      · have hrest : e ∈ rest.map Prod.fst := by
          rcases List.mem_cons.mp h with h | h
          · exact absurd h.symm hk
          · exact h
        simp [bump, hk, ih hrest]

/-- Bumping a fresh key appends it with count one. -/
theorem bump_of_not_mem {cs : List (String × Nat)} {e : String}
    (h : e ∉ cs.map Prod.fst) : bump cs e = cs ++ [(e, 1)] := by
  induction cs with
  | nil => rfl
  | cons kv rest ih =>
      obtain ⟨k, v⟩ := kv
      have hk : ¬ k = e := by
        intro heq
        exact h (by simp [heq])
      have hrest : e ∉ rest.map Prod.fst := by
        intro hm
        exact h (by simp [hm])
      simp [bump, hk, ih hrest]

/-- A key appears in the counting dict iff the exercise occurs. -/
theorem mem_keys_buildCounts (acts : List Activity) (e : String) :
    e ∈ (buildCounts acts).map Prod.fst ↔ 0 < occ acts e := by
  induction acts using List.reverseRecOn with
  | nil => simp [buildCounts, occ]
  | append_singleton acts a ih =>
      rw [occ_append]
      cases hx : exOf a with
      | none =>
          rw [buildCounts_append_none hx]
          simpa using ih
      | some e₀ =>
          rw [buildCounts_append_some hx]
          by_cases he : e₀ ∈ (buildCounts acts).map Prod.fst
          · rw [bump_keys_of_mem he]
            by_cases h : e = e₀
            · subst h
              have h1 : (if some e = some e then 1 else 0) = 1 := if_pos rfl
              rw [h1]
              constructor
              · intro _; omega
              · intro _; exact he
            · have hne : ¬ (some e₀ = some e) := by
                intro hh
                exact h (Option.some.inj hh).symm
              simp only [if_neg hne, Nat.add_zero]
              exact ih
          · rw [bump_of_not_mem he, List.map_append]
            by_cases h : e = e₀
            · subst h
              have h1 : (if some e = some e then 1 else 0) = 1 := if_pos rfl
              rw [h1]
              constructor
              · intro _; omega
              · intro _
                simp
            · have hne : ¬ (some e₀ = some e) := by
                intro hh
                exact h (Option.some.inj hh).symm
              simp only [if_neg hne, Nat.add_zero, List.mem_append,
                List.map_cons, List.map_nil, List.mem_singleton]
              constructor
              · intro hm
                rcases hm with hm | hm
                · exact ih.mp hm
                · exact absurd hm h
              · intro hm
                exact Or.inl (ih.mpr hm)

/-- Appending a record does not disturb the relative first-occurrence
order of exercises that already occur. -/
theorem pairwise_fIdx_extend {acts : List Activity} (a : Activity)
    {ks : List String} (hks : ∀ k ∈ ks, 0 < occ acts k)
    (hp : ks.Pairwise (fun k k' => fIdx acts k < fIdx acts k')) :
    ks.Pairwise (fun k k' => fIdx (acts ++ [a]) k < fIdx (acts ++ [a]) k') := by
  refine hp.imp_of_mem ?_
  intro k k' hk hk' hlt
  rw [fIdx_append_hit ((occ_pos_iff _ _).mp (hks k hk)) a,
    fIdx_append_hit ((occ_pos_iff _ _).mp (hks k' hk')) a]
  exact hlt

/-- The keys of the counting dict are ordered by the position of their
first occurrence in the stored list: the dict is built in
first-encounter order. -/
theorem keys_pairwise_fIdx (acts : List Activity) :
    ((buildCounts acts).map Prod.fst).Pairwise
      (fun k k' => fIdx acts k < fIdx acts k') := by
  induction acts using List.reverseRecOn with
  | nil => simp [buildCounts]
  | append_singleton acts a ih =>
      have hmem : ∀ k ∈ (buildCounts acts).map Prod.fst, 0 < occ acts k :=
        fun k hk => (mem_keys_buildCounts acts k).mp hk
      cases hx : exOf a with
      | none =>
          rw [buildCounts_append_none hx]
          exact pairwise_fIdx_extend a hmem ih
      | some e₀ =>
          rw [buildCounts_append_some hx]
          by_cases he : e₀ ∈ (buildCounts acts).map Prod.fst
          · rw [bump_keys_of_mem he]
            exact pairwise_fIdx_extend a hmem ih
          · rw [bump_of_not_mem he, List.map_append]
            rw [List.pairwise_append]
            refine ⟨pairwise_fIdx_extend a hmem ih, by simp, ?_⟩
            intro k hk b hb
            simp only [List.map_cons, List.map_nil, List.mem_singleton] at hb
            rw [hb]
            have hkl : fIdx acts k < acts.length :=
              (occ_pos_iff _ _).mp (hmem k hk)
            have hmiss : ¬ fIdx acts e₀ < acts.length := by
              intro hlt
              exact he ((mem_keys_buildCounts acts e₀).mpr
                ((occ_pos_iff _ _).mpr hlt))
            rw [fIdx_append_hit hkl a, fIdx_append_miss hmiss hx]
            exact hkl

/-- The counting dict has no duplicate keys. -/
theorem keys_nodup (acts : List Activity) :
    ((buildCounts acts).map Prod.fst).Nodup := by
  refine (keys_pairwise_fIdx acts).imp ?_
  intro k k' hlt heq
  rw [heq] at hlt
  exact lt_irrefl _ hlt

/-- With distinct keys, lookup of a member pair returns its value. -/
theorem lookupN_of_mem_nodup : ∀ {cs : List (String × Nat)},
    (cs.map Prod.fst).Nodup → ∀ {k : String} {v : Nat},
      (k, v) ∈ cs → lookupN cs k = v := by
  intro cs
  induction cs with
  | nil =>
      intro _ k v h
      cases h
  | cons kv rest ih =>
      obtain ⟨k₀, v₀⟩ := kv
      intro hnd k v hm
      have hnd' := List.nodup_cons.mp
        (show (k₀ :: rest.map Prod.fst).Nodup from hnd)
      have hnd1 : k₀ ∉ rest.map Prod.fst := hnd'.1
      have hnd2 : (rest.map Prod.fst).Nodup := hnd'.2
      rcases List.mem_cons.mp hm with h | h
      · obtain ⟨hk, hv⟩ := Prod.mk.inj h
        simp [lookupN, hk.symm, hv.symm]
      · have hk : ¬ k₀ = k := by
          intro heq
          subst heq
          exact hnd1 (List.mem_map.mpr ⟨(k₀, v), h, rfl⟩)
        simp [lookupN, hk]
        exact ih hnd2 h

/-- A key with a positive lookup is a member pair of the dict. -/
theorem mem_of_lookupN_pos : ∀ {cs : List (String × Nat)} {k : String},
    0 < lookupN cs k → (k, lookupN cs k) ∈ cs := by
  intro cs
  induction cs with
  | nil =>
      intro k h
      simp [lookupN] at h
  | cons kv rest ih =>
      obtain ⟨k₀, v₀⟩ := kv
      intro k h
      by_cases hk : k₀ = k
      · subst hk
        simp [lookupN] at h ⊢
      · simp only [lookupN, if_neg hk] at h ⊢
        exact List.mem_cons_of_mem _ (ih h)

/-- The running champion of the max fold never decreases. -/
theorem foldl_pickMax_ge : ∀ (xs : List (String × Nat)) (x : String × Nat),
    x.2 ≤ (xs.foldl pickMax x).2 := by
  intro xs
  induction xs with
  | nil => intro x; exact le_refl _
  | cons y ys ih =>
      intro x
      rw [List.foldl_cons]
      refine le_trans ?_ (ih (pickMax x y))
      unfold pickMax
      split
      · exact le_of_lt (by assumption)
      · exact le_refl _

/-- Python `max` by value splits its input around the returned item:
everything strictly before it is strictly smaller (so the earliest
maximal item is returned) and everything after it is no larger. -/
theorem pyMax_split : ∀ (xs : List (String × Nat)) (x : String × Nat),
    ∃ l₁ l₂, x :: xs = l₁ ++ (xs.foldl pickMax x) :: l₂ ∧
      (∀ q ∈ l₁, q.2 < (xs.foldl pickMax x).2) ∧
      (∀ q ∈ l₂, q.2 ≤ (xs.foldl pickMax x).2) := by
  intro xs
  induction xs with
  | nil =>
      intro x
      exact ⟨[], [], rfl, by simp, by simp⟩
  | cons y ys ih =>
      intro x
      rw [List.foldl_cons]
      by_cases h : x.2 < y.2
      · have hp : pickMax x y = y := by simp [pickMax, h]
        rw [hp]
        obtain ⟨l₁, l₂, heq, h1, h2⟩ := ih y
        refine ⟨x :: l₁, l₂, ?_, ?_, h2⟩
        · rw [List.cons_append]
          exact congrArg (List.cons x) heq
        · intro q hq
          rcases List.mem_cons.mp hq with hq | hq
          · subst hq
            exact lt_of_lt_of_le h (foldl_pickMax_ge ys y)
          · exact h1 q hq
      · have hp : pickMax x y = x := by simp [pickMax, h]
        rw [hp]
        obtain ⟨l₁, l₂, heq, h1, h2⟩ := ih x
        cases l₁ with
        | nil =>
            simp only [List.nil_append] at heq
            obtain ⟨hx, hl⟩ := List.cons.inj heq
            refine ⟨[], y :: l₂, ?_, by simp, ?_⟩
            · simp only [List.nil_append]
              rw [← hx, ← hl]
            · intro q hq
              rcases List.mem_cons.mp hq with hq | hq
              · subst hq
                rw [← hx]
                exact not_lt.mp h
              · exact h2 q hq
        | cons z l₁' =>
            have heq' : x :: ys = z :: (l₁' ++ (ys.foldl pickMax x) :: l₂) := by
              simpa using heq
            obtain ⟨hz, hl⟩ := List.cons.inj heq'
            refine ⟨x :: y :: l₁', l₂, ?_, ?_, h2⟩
            · rw [List.cons_append, List.cons_append, ← hl]
            · intro q hq
              have hxlt : x.2 < (ys.foldl pickMax x).2 := by
                have := h1 z (List.mem_cons_self z l₁')
                rw [← hz] at this
                exact this
              rcases List.mem_cons.mp hq with hq | hq
              · subst hq
                exact hxlt
              · rcases List.mem_cons.mp hq with hq | hq
                · subst hq
                  exact lt_of_le_of_lt (not_lt.mp h) hxlt
                · exact h1 q (List.mem_cons_of_mem z hq)

/-- C8 amended: for every store state containing at least one record
with a present (truthy) exercise, `get_statistics` reports a most
frequent exercise that actually occurs, whose occurrence count is
maximal, and which — among the exercises achieving the maximal count —
is the one first encountered in insertion order during the counting
pass. -/
theorem stats_most_frequent (s : State)
    (h : ∃ a ∈ s.activities, exOf a ≠ none) :
    ∃ e, (get_statistics s).most_frequent_exercise = some e ∧
      0 < occ s.activities e ∧
      (∀ e', occ s.activities e' ≤ occ s.activities e) ∧
      (∀ e', occ s.activities e' = occ s.activities e →
        fIdx s.activities e ≤ fIdx s.activities e') := by
  obtain ⟨a, ha, hne⟩ := h
  obtain ⟨e₀, hx⟩ := Option.ne_none_iff_exists.mp hne
  have hocc0 : 0 < occ s.activities e₀ := by
    rw [occ, List.countP_pos_iff]
    exact ⟨a, ha, by simp [← hx]⟩
  have hnil : s.activities ≠ [] := by
    intro hE
    rw [hE] at ha
    cases ha
  cases hc : buildCounts s.activities with
  | nil =>
      have := lookupN_buildCounts s.activities e₀
      rw [hc] at this
      simp [lookupN] at this
      omega
  | cons x xs =>
  have hmf : (get_statistics s).most_frequent_exercise =
      some (xs.foldl pickMax x).1 := by
    unfold get_statistics
    rw [if_neg hnil]
    simp only [hc, pyMaxBySnd]
    rfl
  obtain ⟨l₁, l₂, heq, h1, h2⟩ := pyMax_split xs x
  have heq' : buildCounts s.activities = l₁ ++ (xs.foldl pickMax x) :: l₂ :=
    hc.trans heq
  have hnd := keys_nodup s.activities
  have hresmem : (xs.foldl pickMax x) ∈ buildCounts s.activities := by
    rw [heq']
    exact List.mem_append.mpr (Or.inr (List.mem_cons_self _ _))
  have hres_look : occ s.activities (xs.foldl pickMax x).1 =
      (xs.foldl pickMax x).2 := by
    rw [← lookupN_buildCounts]
    exact lookupN_of_mem_nodup hnd hresmem
  have hmax_mem : ∀ q ∈ buildCounts s.activities,
      q.2 ≤ (xs.foldl pickMax x).2 := by
    intro q hq
    rw [heq'] at hq
    rcases List.mem_append.mp hq with hq | hq
    · exact le_of_lt (h1 q hq)
    · rcases List.mem_cons.mp hq with hq | hq
      · rw [hq]
      · exact h2 q hq
  have hmax : ∀ e', occ s.activities e' ≤ occ s.activities (xs.foldl pickMax x).1 := by
    intro e'
    rcases Nat.eq_zero_or_pos (occ s.activities e') with hz | hp
    · omega
    · have h0 : 0 < lookupN (buildCounts s.activities) e' := by
        rw [lookupN_buildCounts]
        exact hp
      have hm := mem_of_lookupN_pos h0
      rw [lookupN_buildCounts] at hm
      rw [hres_look]
      exact hmax_mem _ hm
  have hpos : 0 < occ s.activities (xs.foldl pickMax x).1 :=
    lt_of_lt_of_le hocc0 (hmax e₀)
  refine ⟨(xs.foldl pickMax x).1, hmf, hpos, hmax, ?_⟩
  intro e' htie
  rcases eq_or_ne e' (xs.foldl pickMax x).1 with heq'' | hne'
  · rw [heq'']
  · have hp : 0 < occ s.activities e' := by
      rw [htie]
      exact hpos
    have hm : (e', occ s.activities e') ∈ buildCounts s.activities := by
      have h0 : 0 < lookupN (buildCounts s.activities) e' := by
        rw [lookupN_buildCounts]
        exact hp
      have := mem_of_lookupN_pos h0
      rwa [lookupN_buildCounts] at this
    rw [heq'] at hm
    rcases List.mem_append.mp hm with hm | hm
    · have hlt := h1 _ hm
      simp only at hlt
      rw [htie, hres_look] at hlt
      exact absurd hlt (lt_irrefl _)
    · rcases List.mem_cons.mp hm with hmeq | hm
      · exact absurd (congrArg Prod.fst hmeq) hne'
      · have hpw := keys_pairwise_fIdx s.activities
        have hkeys : (buildCounts s.activities).map Prod.fst =
            l₁.map Prod.fst ++ (xs.foldl pickMax x).1 :: l₂.map Prod.fst := by
          rw [heq']
          simp
        rw [hkeys] at hpw
        have hpw2 := (List.pairwise_append.mp hpw).2.1
        have hlt := (List.pairwise_cons.mp hpw2).1 e'
          (List.mem_map.mpr ⟨(e', occ s.activities e'), hm, rfl⟩)
        exact le_of_lt hlt

/-- Counterexample to C8 as stated: a reachable non-empty store in
which no record names an exercise makes `get_statistics` report `null`
as most frequent exercise instead of an exercise with maximal count. -/
theorem stats_most_frequent_cex :
    store_activity embedOkW "n1" "t1" emptyState noExData = (sNoEx, .ok "n1") ∧
    sNoEx.activities ≠ [] ∧
    (get_statistics sNoEx).most_frequent_exercise = none :=
  ⟨rfl, by decide, by decide⟩

/-- Witness for C8's amended claim at a store with a tie: squat and
bench both occur twice, squat first. -/
theorem stats_most_frequent_witness :
    ∃ e, (get_statistics sTie).most_frequent_exercise = some e ∧
      0 < occ sTie.activities e ∧
      (∀ e', occ sTie.activities e' ≤ occ sTie.activities e) ∧
      (∀ e', occ sTie.activities e' = occ sTie.activities e →
        fIdx sTie.activities e ≤ fIdx sTie.activities e') :=
  stats_most_frequent sTie ⟨exRec "1" "squat", by decide, by decide⟩

end GymMemory
